import Mathlib

/-!
Verification of the NarrativeScope signal pipeline.

The embedding models JavaScript numbers as exact rationals wherever the
source only adds, multiplies, divides, compares and rounds them; the one
use of `Math.log2` (the developer-diversity sub-score) forces the
composite-score computation into the reals, so the score functions are
stated over `ℝ` (and are therefore noncomputable), while clustering,
stage classification and confidence stay computable over `ℚ`.
-/

namespace NarrativeScope

/-- JS `Math.round` on rationals: round half toward positive infinity. -/
def jround (q : ℚ) : ℤ := ⌊q + 1/2⌋

/-- JS `Math.round` on reals (used where `Math.log2` forces real arithmetic). -/
noncomputable def jroundR (x : ℝ) : ℤ := ⌊x + 1/2⌋

/-- One scored tweet (the x-scanner's `XSignal`). -/
structure XSignal where
  text : String
  author : String
  authorId : String
  likes : ℚ
  retweets : ℚ
  replies : ℚ
  created : String
  tweetId : String
  query : String
  engagementScore : ℚ
  deriving DecidableEq

/-- A social topic cluster (the x-scanner's `TopicCluster`).  The converter
script's clusters carry no `uniqueAuthors` field, so it is optional here,
mirroring the `?? 0` read in the aggregator. -/
structure TopicCluster where
  topic : String
  tweetCount : ℚ
  avgEngagement : ℚ
  totalEngagement : ℚ
  topTweets : List XSignal
  keyTerms : List String
  uniqueAuthors : Option ℚ
  deriving DecidableEq

/-- A GitHub repository (the github-scanner's `GHRepo`). -/
structure GHRepo where
  name : String
  fullName : String
  description : String
  stars : ℚ
  forks : ℚ
  created : String
  updated : String
  language : String
  url : String
  query : String
  deriving DecidableEq

/-- A developer topic cluster (the github-scanner's `GHTopicCluster`). -/
structure GHTopicCluster where
  topic : String
  repoCount : ℚ
  totalStars : ℚ
  avgStars : ℚ
  topRepos : List GHRepo
  keyTerms : List String
  deriving DecidableEq

/-- The x-scan envelope consumed by the aggregator. -/
structure XScanResult where
  scannedAt : String
  queries : List String
  signals : List XSignal
  topicClusters : List TopicCluster
  deriving DecidableEq

/-- The github-scan envelope consumed by the aggregator. -/
structure GHScanResult where
  scannedAt : String
  queries : List String
  repos : List GHRepo
  topicClusters : List GHTopicCluster
  deriving DecidableEq

/-- A tweet preview inside a narrative record. -/
structure TweetPreview where
  text : String
  author : String
  likes : ℚ
  url : String
  deriving DecidableEq

/-- A repo preview inside a narrative record. -/
structure RepoPreview where
  name : String
  description : String
  stars : ℚ
  url : String
  deriving DecidableEq

/-- The social half of a narrative's signal snapshot. -/
structure SocialSnapshot where
  tweetCount : ℚ
  avgEngagement : ℚ
  totalEngagement : ℚ
  uniqueAuthors : ℚ
  topTweets : List TweetPreview
  keyTerms : List String
  deriving DecidableEq

/-- The developer half of a narrative's signal snapshot. -/
structure DevSnapshot where
  repoCount : ℚ
  totalStars : ℚ
  avgStars : ℚ
  topRepos : List RepoPreview
  keyTerms : List String
  deriving DecidableEq

/-- Narrative lifecycle stage. -/
inductive Stage where
  | preNarrative
  | emergence
  | acceleration
  | peak
  deriving DecidableEq

/-- A detected narrative (the aggregator's `DetectedNarrative`).  The
`explanation` and `buildIdeas` fields of the source are deterministic string
templates referenced by no verified property, and are omitted. -/
structure DetectedNarrative where
  name : String
  confidence : ℚ
  stage : Stage
  signalScore : ℤ
  social : SocialSnapshot
  developer : DevSnapshot

/-- The aggregator's topic-alignment entry: narrative name, x-cluster topic,
github-cluster topic. -/
structure AlignEntry where
  name : String
  xTopic : String
  ghTopic : String
  deriving DecidableEq

/-- The aggregator's `TOPIC_ALIGNMENT` table, in definition order. -/
def TOPIC_ALIGNMENT : List AlignEntry :=
  [⟨"Privacy Infrastructure", "Privacy & Confidential Computing", "Privacy & Confidential Computing"⟩,
   ⟨"AI Agent Economy", "AI Agent Infrastructure", "AI Agent Infrastructure"⟩,
   ⟨"Agent Commerce", "Agent Commerce & Payments", "Payments & Commerce"⟩,
   ⟨"DePIN Growth", "DePIN & Physical Infrastructure", "DePIN"⟩,
   ⟨"Dev Tooling for Solana", "Dev Tooling & AI-Assisted Building", "Dev Tooling"⟩,
   ⟨"Restaking & LSTs", "Restaking & Liquid Staking", "DeFi & Financial"⟩,
   ⟨"Cross-chain", "Cross-chain & Interoperability", ""⟩]

/-- `computeSignalScore`'s social sub-score (0-40): volume, engagement and
author-diversity terms, each capped, exactly as in the source. -/
noncomputable def socialScoreR (s : SocialSnapshot) : ℝ :=
  let socialVolume := min ((s.tweetCount : ℝ) * 2.5) 15
  let socialEngagement := min ((s.avgEngagement : ℝ) / 60) 20
  let diversityRatio : ℝ :=
    if 0 < s.tweetCount then (s.uniqueAuthors : ℝ) / (s.tweetCount : ℝ) else 0
  let diversityBonus := min (diversityRatio * (s.uniqueAuthors : ℝ)) 5
  socialVolume + socialEngagement + diversityBonus

/-- `computeSignalScore`'s developer sub-score (0-40): volume, star-quality
and repo-diversity terms; the diversity term uses `Math.log2`. -/
noncomputable def devScoreR (d : DevSnapshot) : ℝ :=
  let devVolume := min ((d.repoCount : ℝ) * 2) 15
  let devQuality := min ((d.totalStars : ℝ) / 10) 20
  let devDiversity : ℝ :=
    if 0 < d.repoCount ∧ 0 < d.avgStars then
      min ((d.repoCount : ℝ) * Real.logb 2 ((d.avgStars : ℝ) + 1)) 5
    else 0
  devVolume + devQuality + devDiversity

/-- `computeSignalScore`'s cross-source bonus (0-20): zero unless both
streams contribute, otherwise 10 plus a rounded product of the two
normalized strengths. -/
noncomputable def crossSourceBonusR (s : SocialSnapshot) (d : DevSnapshot) : ℝ :=
  if 0 < s.tweetCount ∧ 0 < d.repoCount then
    10 + (jroundR (min (socialScoreR s / 30) 1 * min (devScoreR d / 30) 1 * 10) : ℝ)
  else 0

/-- The aggregator's `computeSignalScore`: `Math.min(Math.round(social +
dev + cross), 100)`. -/
noncomputable def computeSignalScore (s : SocialSnapshot) (d : DevSnapshot) : ℤ :=
  min (jroundR (socialScoreR s + devScoreR d + crossSourceBonusR s d)) 100

/-- The aggregator's `determineStage`: five threshold rules, first match
wins. -/
def determineStage (s : SocialSnapshot) (d : DevSnapshot) : Stage :=
  if (5 ≤ s.tweetCount ∧ 100 ≤ s.avgEngagement) ∧ (5 ≤ d.repoCount ∧ 20 ≤ d.totalStars) ∧
      500 ≤ s.avgEngagement ∧ 8 ≤ s.uniqueAuthors then .peak
  else if (5 ≤ s.tweetCount ∧ 100 ≤ s.avgEngagement) ∧ (5 ≤ d.repoCount ∧ 20 ≤ d.totalStars) ∧
      200 ≤ s.avgEngagement then .acceleration
  else if (5 ≤ s.tweetCount ∧ 100 ≤ s.avgEngagement) ∨ (5 ≤ d.repoCount ∧ 20 ≤ d.totalStars) then
    .emergence
  else if 0 < d.repoCount ∧ ¬(0 < s.tweetCount) then .preNarrative
  else if 0 < s.tweetCount then .emergence
  else .preNarrative

/-- One guarded `if (cond) confidence += x` statement of `computeConfidence`. -/
def addIf (c : ℚ) (P : Prop) [Decidable P] (x : ℚ) : ℚ := if P then c + x else c

/-- The aggregator's `computeConfidence`: base 0.25, ten independent additive
threshold bonuses applied in source order, rounded to 2 decimals
(`Math.round(c * 100) / 100`) and capped at 0.95. -/
def computeConfidence (s : SocialSnapshot) (d : DevSnapshot) : ℚ :=
  let c0 : ℚ := 0.25
  let c1 := addIf c0 (3 ≤ s.tweetCount) 0.08
  let c2 := addIf c1 (10 ≤ s.tweetCount) 0.07
  let c3 := addIf c2 (100 ≤ s.avgEngagement) 0.08
  let c4 := addIf c3 (300 ≤ s.avgEngagement) 0.05
  let c5 := addIf c4 (3 ≤ s.uniqueAuthors) 0.08
  let c6 := addIf c5 (8 ≤ s.uniqueAuthors) 0.07
  let c7 := addIf c6 (3 ≤ d.repoCount) 0.08
  let c8 := addIf c7 (10 ≤ d.repoCount) 0.07
  let c9 := addIf c8 (50 ≤ d.totalStars) 0.05
  let c10 := addIf c9 (0 < s.tweetCount ∧ 0 < d.repoCount) 0.12
  min ((jround (c10 * 100) : ℚ) / 100) 0.95

/-- The stage cascade exactly as the spec words it (claim C5): identical to
`determineStage` except that the fourth rule is written `repoCount > 0 and
tweetCount == 0` where the source tests `hasAnyDev && !hasAnySocial`. -/
def determineStageSpecC5 (s : SocialSnapshot) (d : DevSnapshot) : Stage :=
  if (5 ≤ s.tweetCount ∧ 100 ≤ s.avgEngagement) ∧ (5 ≤ d.repoCount ∧ 20 ≤ d.totalStars) ∧
      500 ≤ s.avgEngagement ∧ 8 ≤ s.uniqueAuthors then .peak
  else if (5 ≤ s.tweetCount ∧ 100 ≤ s.avgEngagement) ∧ (5 ≤ d.repoCount ∧ 20 ≤ d.totalStars) ∧
      200 ≤ s.avgEngagement then .acceleration
  else if (5 ≤ s.tweetCount ∧ 100 ≤ s.avgEngagement) ∨ (5 ≤ d.repoCount ∧ 20 ≤ d.totalStars) then
    .emergence
  else if 0 < d.repoCount ∧ s.tweetCount = 0 then .preNarrative
  else if 0 < s.tweetCount then .emergence
  else .preNarrative

/-- Stable descending insertion: `x` goes after every element whose key is
at least `key x`, so equal keys keep their original relative order — the
behaviour of JS `Array.prototype.sort` with a `b-a` comparator. -/
def insertDesc {α : Type} {κ : Type} [LinearOrder κ] (key : α → κ) (x : α) :
    List α → List α
  | [] => [x]
  | y :: ys => if key x ≤ key y then y :: insertDesc key x ys else x :: y :: ys

/-- Stable descending sort by `key` (JS `sort((a, b) => key b - key a)`). -/
def sortDesc {α : Type} {κ : Type} [LinearOrder κ] (key : α → κ) (l : List α) : List α :=
  l.foldl (fun acc x => insertDesc key x acc) []

/-- The tweet-stream stop-word set (`llm-synthesis` / converter, verbatim). -/
def STOP_WORDS_TWEETS : List String :=
  ["the", "a", "an", "is", "are", "was", "were", "be", "been", "being",
   "have", "has", "had", "do", "does", "did", "will", "would", "could",
   "should", "may", "might", "can", "shall", "to", "of", "in", "for",
   "on", "with", "at", "by", "from", "as", "into", "through", "during",
   "before", "after", "above", "below", "and", "but", "or", "nor", "not",
   "so", "yet", "both", "either", "neither", "each", "every", "all",
   "this", "that", "these", "those", "it", "its", "they", "them", "their",
   "we", "us", "our", "you", "your", "he", "him", "his", "she", "her",
   "i", "me", "my", "what", "which", "who", "whom", "how", "when", "where",
   "why", "if", "than", "just", "more", "most", "very", "too", "also",
   "about", "up", "out", "no", "https", "co", "rt", "amp"]

/-- The repo-stream stop-word set (github-scanner, verbatim). -/
def STOP_WORDS_REPOS : List String :=
  ["the", "a", "an", "for", "and", "with", "that", "this", "from",
   "solana", "sol", "built", "using", "based"]

/-- Is the first list a leading segment of the second (over `Char`)? -/
def charsLead : List Char → List Char → Bool
  | [], _ => true
  | _ :: _, [] => false
  | a :: as, b :: bs => a == b && charsLead as bs

/-- Is there a non-whitespace character at position `n`? -/
def nonWsAt (l : List Char) (n : ℕ) : Bool :=
  match l.drop n with
  | [] => false
  | c :: _ => !c.isWhitespace

/-- Does a match of `/https?:\/\/\S+/` start here?  The scheme must be
followed by at least one non-whitespace character (`\S+`). -/
def isUrlStart (l : List Char) : Bool :=
  (charsLead "http://".toList l && nonWsAt l 7) ||
    (charsLead "https://".toList l && nonWsAt l 8)

/-- Worker for `stripUrls`: when the flag is set we are inside a matched
`\S+` run and drop characters until whitespace. -/
def stripUrlsAux : Bool → List Char → List Char
  | _, [] => []
  | true, c :: cs =>
    if c.isWhitespace then c :: stripUrlsAux false cs else stripUrlsAux true cs
  | false, c :: cs =>
    if isUrlStart (c :: cs) then stripUrlsAux true cs else c :: stripUrlsAux false cs

/-- JS `text.replace(/https?:\/\/\S+/g, "")`. -/
def stripUrls (l : List Char) : List Char := stripUrlsAux false l

/-- JS `replace(/[^a-z0-9\s]/g, " ")` on one character. -/
def keepAlnumWs (c : Char) : Char :=
  if ('a' ≤ c && c ≤ 'z') || ('0' ≤ c && c ≤ '9') || c.isWhitespace then c else ' '

/-- JS `replace(/[^a-z0-9\s-]/g, " ")` on one character (repo stream keeps
hyphens). -/
def keepAlnumWsHyphen (c : Char) : Char :=
  if ('a' ≤ c && c ≤ 'z') || ('0' ≤ c && c ≤ '9') || c.isWhitespace || c == '-' then c
  else ' '

/-- Worker for `splitRuns`, accumulating the current word reversed. -/
def splitRunsAux (sep : Char → Bool) : List Char → List Char → List (List Char)
  | cur, [] => if cur.isEmpty then [] else [cur.reverse]
  | cur, c :: cs =>
    if sep c then
      if cur.isEmpty then splitRunsAux sep [] cs
      else cur.reverse :: splitRunsAux sep [] cs
    else splitRunsAux sep (c :: cur) cs

/-- Split on runs of separator characters (JS `split(/\s+/)` up to the empty
leading/trailing tokens, which the length filter removes anyway). -/
def splitRuns (sep : Char → Bool) (l : List Char) : List (List Char) :=
  splitRunsAux sep [] l

/-- Tweet tokenizer: lowercase, strip URLs, keep `[a-z0-9\s]`, split on
whitespace, keep tokens longer than 3 outside the stop-word set. -/
def tokenizeTweetText (t : String) : List String :=
  (((splitRuns (fun c => c.isWhitespace)
        ((stripUrls (t.toList.map Char.toLower)).map keepAlnumWs)).map
      (fun w => String.mk w)).filter
    (fun w => 3 < w.length && !(STOP_WORDS_TWEETS.contains w)))

/-- Repo tokenizer: lowercase, keep `[a-z0-9\s-]`, split on whitespace and
hyphens, keep tokens longer than 3 outside the repo stop-word set. -/
def tokenizeRepoText (t : String) : List String :=
  (((splitRuns (fun c => c.isWhitespace || c == '-')
        ((t.toList.map Char.toLower).map keepAlnumWsHyphen)).map
      (fun w => String.mk w)).filter
    (fun w => 3 < w.length && !(STOP_WORDS_REPOS.contains w)))

/-- One `wordFreq.set(w, (wordFreq.get(w) ?? 0) + 1)` step on a JS `Map`
modelled as an insertion-ordered association list. -/
def bump : List (String × ℕ) → String → List (String × ℕ)
  | [], w => [(w, 1)]
  | p :: rest, w => if p.1 = w then (p.1, p.2 + 1) :: rest else p :: bump rest w

/-- The word-frequency `Map` built over a token stream. -/
def buildFreq (ws : List String) : List (String × ℕ) := ws.foldl bump []

/-- The keys of a JS `Map` in insertion order: each word of the stream in
order of first occurrence (specification device for `buildFreq`). -/
def firstSeen (ws : List String) : List String :=
  ws.foldl (fun acc w => if w ∈ acc then acc else acc ++ [w]) []

/-- All tokens of a signal list, in loop order (tweet stream). -/
def tweetTokens (signals : List XSignal) : List String :=
  (signals.map (fun s => tokenizeTweetText s.text)).flatten

/-- All tokens of a repo list, in loop order (`${r.name} ${r.description}`). -/
def repoTokens (repos : List GHRepo) : List String :=
  (repos.map (fun r => tokenizeRepoText (r.name ++ " " ++ r.description))).flatten

/-- Shared tail of both `extractKeyTerms` variants: keep counts ≥ 2, stable
sort descending by count, take 10, return the tokens. -/
def keyTermsOfTokens (tokens : List String) : List String :=
  (((sortDesc (fun p : String × ℕ => p.2)
        ((buildFreq tokens).filter (fun p => decide (2 ≤ p.2)))).take 10).map
    Prod.fst)

/-- `extractKeyTerms` of the tweet stream (llm-synthesis / converter). -/
def extractKeyTerms (signals : List XSignal) : List String :=
  keyTermsOfTokens (tweetTokens signals)

/-- `extractKeyTerms` of the repo stream (github-scanner). -/
def extractKeyTermsRepos (repos : List GHRepo) : List String :=
  keyTermsOfTokens (repoTokens repos)

/-- The converter's `clusterTweets`.  Following the spec's design note, the
regex pattern table is threaded as an ordered list of
`(label, predicates-over-text)` pairs; `ps.any (p => p text)` is the
source's `patterns.some((p) => p.test(text))`. -/
def clusterTweets (patterns : List (String × List (String → Bool)))
    (signals : List XSignal) : List TopicCluster :=
  let clusters := patterns.filterMap (fun tp =>
    let matching := signals.filter (fun s => tp.2.any (fun p => p s.text))
    if matching.length = 0 then none
    else
      let totalEng := (matching.map (fun s => s.engagementScore)).sum
      some { topic := tp.1
             tweetCount := (matching.length : ℚ)
             avgEngagement := (jround (totalEng / (matching.length : ℚ)) : ℚ)
             totalEngagement := (jround totalEng : ℚ)
             topTweets := matching.take 5
             keyTerms := extractKeyTerms matching
             uniqueAuthors := none })
  sortDesc (fun c => c.tweetCount * 10 + c.avgEngagement) clusters

/-- The github-scanner's `clusterReposByTopic`, pattern table threaded the
same way; the match text is `${r.name} ${r.description} ${r.query}`. -/
def clusterReposByTopic (patterns : List (String × List (String → Bool)))
    (repos : List GHRepo) : List GHTopicCluster :=
  let clusters := patterns.filterMap (fun tp =>
    let matching := repos.filter (fun r =>
      tp.2.any (fun p => p (r.name ++ " " ++ r.description ++ " " ++ r.query)))
    if matching.length = 0 then none
    else
      let totalStars := (matching.map (fun r => r.stars)).sum
      some { topic := tp.1
             repoCount := (matching.length : ℚ)
             totalStars := totalStars
             avgStars := (jround (totalStars / (matching.length : ℚ) * 10) : ℚ) / 10
             topRepos := matching.take 5
             keyTerms := extractKeyTermsRepos matching })
  sortDesc (fun c => c.repoCount * 5 + c.totalStars) clusters

/-- The aggregator's social snapshot builder: cluster found → copy its
stats (`uniqueAuthors ?? 0`, top-3 preview with 200-char texts); cluster
absent → the all-zero snapshot. -/
def buildSocialSnapshot (xc : Option TopicCluster) : SocialSnapshot :=
  match xc with
  | some c =>
    { tweetCount := c.tweetCount
      avgEngagement := c.avgEngagement
      totalEngagement := c.totalEngagement
      uniqueAuthors := c.uniqueAuthors.getD 0
      topTweets := (c.topTweets.take 3).map (fun t =>
        { text := t.text.take 200
          author := t.author
          likes := t.likes
          url := "https://x.com/i/status/" ++ t.tweetId })
      keyTerms := c.keyTerms }
  | none =>
    { tweetCount := 0, avgEngagement := 0, totalEngagement := 0,
      uniqueAuthors := 0, topTweets := [], keyTerms := [] }

/-- The aggregator's developer snapshot builder. -/
def buildDevSnapshot (gc : Option GHTopicCluster) : DevSnapshot :=
  match gc with
  | some c =>
    { repoCount := c.repoCount
      totalStars := c.totalStars
      avgStars := c.avgStars
      topRepos := (c.topRepos.take 3).map (fun r =>
        { name := r.fullName
          description := r.description.take 200
          stars := r.stars
          url := r.url })
      keyTerms := c.keyTerms }
  | none =>
    { repoCount := 0, totalStars := 0, avgStars := 0, topRepos := [], keyTerms := [] }

/-- One iteration of `aggregateSignals`' alignment loop: skip when neither
cluster is found, score/stage/confidence on the snapshots, skip when the
score is below 15, otherwise the narrative record. -/
noncomputable def processEntry (x : XScanResult) (g : GHScanResult)
    (e : AlignEntry) : Option DetectedNarrative :=
  let xCluster := x.topicClusters.find? (fun c => c.topic == e.xTopic)
  let ghCluster := g.topicClusters.find? (fun c => c.topic == e.ghTopic)
  if xCluster.isNone && ghCluster.isNone then none
  else
    let social := buildSocialSnapshot xCluster
    let developer := buildDevSnapshot ghCluster
    let signalScore := computeSignalScore social developer
    let stage := determineStage social developer
    let confidence := computeConfidence social developer
    if signalScore < 15 then none
    else some { name := e.name, confidence := confidence, stage := stage,
                signalScore := signalScore, social := social, developer := developer }

/-- The aggregator's narrative list: the alignment loop's surviving records,
sorted descending by signal score (`sort((a, b) => b.signalScore -
a.signalScore)`).  The report envelope around it (`generatedAt`, `period`,
methodology text) holds only wall-clock strings and is not modelled. -/
noncomputable def aggregateSignals (x : XScanResult) (g : GHScanResult) :
    List DetectedNarrative :=
  sortDesc (fun n => n.signalScore) (TOPIC_ALIGNMENT.filterMap (processEntry x g))

/-- A JS number that may be NaN (used only to examine the snapshot builder's
claimed NaN handling, which exact-rational arithmetic cannot express). -/
inductive JSNum where
  | num (q : ℚ)
  | nan
  deriving DecidableEq

/-- An input social cluster over `JSNum`; a missing `uniqueAuthors` field
(the converter never writes one) is `none` = `undefined`. -/
structure TopicClusterJS where
  topic : String
  tweetCount : JSNum
  avgEngagement : JSNum
  totalEngagement : JSNum
  uniqueAuthors : Option JSNum
  deriving DecidableEq

/-- The numeric fields of a social snapshot over `JSNum`. -/
structure SocialCountsJS where
  tweetCount : JSNum
  avgEngagement : JSNum
  totalEngagement : JSNum
  uniqueAuthors : JSNum
  deriving DecidableEq

/-- The numeric part of the aggregator's social snapshot builder, over the
NaN-aware domain: every count is copied verbatim from the cluster, and the
one `?? 0` (on `uniqueAuthors`) replaces only an absent field — JS `??`
tests `null`/`undefined`, not NaN. -/
def buildSocialCountsJS (c : TopicClusterJS) : SocialCountsJS :=
  { tweetCount := c.tweetCount
    avgEngagement := c.avgEngagement
    totalEngagement := c.totalEngagement
    uniqueAuthors := c.uniqueAuthors.getD (.num 0) }

/-! ### Rounding lemmas -/

theorem jroundR_mono {x y : ℝ} (h : x ≤ y) : jroundR x ≤ jroundR y :=
  Int.floor_le_floor (by linarith)

theorem jroundR_nonneg {x : ℝ} (h : 0 ≤ x) : 0 ≤ jroundR x :=
  Int.le_floor.mpr (by norm_num; linarith)

theorem jroundR_intCast (n : ℤ) : jroundR (n : ℝ) = n := by
  rw [jroundR, Int.floor_eq_iff]
  refine ⟨by linarith, by linarith⟩

theorem jroundR_le {x : ℝ} {n : ℤ} (h : x ≤ (n : ℝ)) : jroundR x ≤ n := by
  have := jroundR_mono h
  rwa [jroundR_intCast] at this

theorem jround_intCast (n : ℤ) : jround (n : ℚ) = n := by
  rw [jround, Int.floor_eq_iff]
  refine ⟨by linarith, by linarith⟩

theorem addIf_eq (c : ℚ) (P : Prop) [Decidable P] (x : ℚ) :
    addIf c P x = c + (if P then x else 0) := by
  rw [addIf]
  split <;> simp

/-- `Math.min(Math.round(x), 100) = Math.round(Math.min(x, 100))`: the order
of the final cap and the final rounding does not matter. -/
theorem min_jroundR_100 (x : ℝ) : min (jroundR x) 100 = jroundR (min x 100) := by
  rcases le_total x 100 with h | h
  · have h1 : jroundR x ≤ 100 := jroundR_le (by exact_mod_cast h)
    rw [min_eq_left h1, min_eq_left h]
  · have h2 : (100 : ℤ) ≤ jroundR x := by
      have h3 := jroundR_mono (show ((100 : ℤ) : ℝ) ≤ x from by exact_mod_cast h)
      rwa [jroundR_intCast] at h3
    have h4 : jroundR (100 : ℝ) = 100 := by
      have h5 := jroundR_intCast 100
      norm_num at h5
      exact h5
    rw [min_eq_right h2, min_eq_right h, h4]

/-! ### Lemmas about the stable descending sort -/

theorem mem_insertDesc {α κ : Type} [LinearOrder κ] (key : α → κ) (x a : α) :
    ∀ l : List α, a ∈ insertDesc key x l ↔ a = x ∨ a ∈ l := by
  intro l
  induction l with
  | nil => simp [insertDesc]
  | cons y ys ih =>
    rw [insertDesc]
    split
    · rw [List.mem_cons, ih, List.mem_cons]
      tauto
    · rw [List.mem_cons]

theorem mem_sortDesc {α κ : Type} [LinearOrder κ] (key : α → κ) (a : α) (l : List α) :
    a ∈ sortDesc key l ↔ a ∈ l := by
  suffices h : ∀ (l acc : List α),
      a ∈ l.foldl (fun acc x => insertDesc key x acc) acc ↔ a ∈ l ∨ a ∈ acc by
    rw [sortDesc, h l []]
    simp
  intro l
  induction l with
  | nil => simp
  | cons x xs ih =>
    intro acc
    rw [List.foldl_cons, ih, mem_insertDesc]
    simp only [List.mem_cons]
    tauto

theorem pairwise_insertDesc {α κ : Type} [LinearOrder κ] (key : α → κ)
    (S : α → α → Prop) (x : α) :
    ∀ l : List α,
      l.Pairwise (fun a b => key b < key a ∨ (key a = key b ∧ S a b)) →
      (∀ y ∈ l, S y x) →
      (insertDesc key x l).Pairwise
        (fun a b => key b < key a ∨ (key a = key b ∧ S a b)) := by
  intro l
  induction l with
  | nil => intro _ _; simp [insertDesc]
  | cons y ys ih =>
    intro hp hS
    rcases List.pairwise_cons.mp hp with ⟨hy, hys⟩
    rw [insertDesc]
    split
    · next hle =>
      refine List.pairwise_cons.mpr ⟨?_, ih hys (fun z hz => hS z (List.mem_cons_of_mem _ hz))⟩
      intro z hz
      rcases (mem_insertDesc key x z ys).mp hz with rfl | hz'
      · rcases lt_or_eq_of_le hle with hlt | heq
        · exact Or.inl hlt
        · exact Or.inr ⟨heq.symm, hS y (List.mem_cons_self y ys)⟩
      · exact hy z hz'
    · next hgt =>
      push_neg at hgt
      refine List.pairwise_cons.mpr ⟨?_, hp⟩
      intro z hz
      rcases List.mem_cons.mp hz with rfl | hz'
      · exact Or.inl hgt
      · rcases hy z hz' with hlt | ⟨heq, _⟩
        · exact Or.inl (hlt.trans hgt)
        · exact Or.inl (heq ▸ hgt)

theorem pairwise_sortDesc {α κ : Type} [LinearOrder κ] (key : α → κ)
    (S : α → α → Prop) :
    ∀ (l acc : List α), l.Pairwise S →
      acc.Pairwise (fun a b => key b < key a ∨ (key a = key b ∧ S a b)) →
      (∀ y ∈ acc, ∀ x ∈ l, S y x) →
      (l.foldl (fun acc x => insertDesc key x acc) acc).Pairwise
        (fun a b => key b < key a ∨ (key a = key b ∧ S a b)) := by
  intro l
  induction l with
  | nil => intro acc _ hacc _; simpa using hacc
  | cons x rest ih =>
    intro acc hl hacc hcross
    rcases List.pairwise_cons.mp hl with ⟨hx, hrest⟩
    rw [List.foldl_cons]
    apply ih _ hrest
    · exact pairwise_insertDesc key S x acc hacc
        (fun y hy => hcross y hy x (List.mem_cons_self x rest))
    · intro y hy x' hx'
      rcases (mem_insertDesc key x y acc).mp hy with rfl | hy'
      · exact hx x' hx'
      · exact hcross y hy' x' (List.mem_cons_of_mem _ hx')

theorem sortDesc_pairwise {α κ : Type} [LinearOrder κ] (key : α → κ)
    (S : α → α → Prop) (l : List α) (hl : l.Pairwise S) :
    (sortDesc key l).Pairwise (fun a b => key b < key a ∨ (key a = key b ∧ S a b)) :=
  pairwise_sortDesc key S l [] hl (List.Pairwise.nil) (by simp)

theorem pairwise_trivial {α : Type} (l : List α) : l.Pairwise (fun _ _ => True) := by
  induction l with
  | nil => exact List.Pairwise.nil
  | cons a l ih => exact List.pairwise_cons.mpr ⟨fun _ _ => trivial, ih⟩

/-- The produced order is descending in the sort key. -/
theorem sortDesc_sorted {α κ : Type} [LinearOrder κ] (key : α → κ) (l : List α) :
    (sortDesc key l).Pairwise (fun a b => key b ≤ key a) :=
  (sortDesc_pairwise key (fun _ _ => True) l (pairwise_trivial l)).imp
    (fun h => h.elim le_of_lt (fun he => le_of_eq he.1.symm))

/-! ### Bounds on the score components -/

theorem socialScoreR_nonneg (s : SocialSnapshot) (ht : 0 ≤ s.tweetCount)
    (he : 0 ≤ s.avgEngagement) (hu : 0 ≤ s.uniqueAuthors) : 0 ≤ socialScoreR s := by
  have ht' : (0 : ℝ) ≤ (s.tweetCount : ℝ) := by exact_mod_cast ht
  have he' : (0 : ℝ) ≤ (s.avgEngagement : ℝ) := by exact_mod_cast he
  have hu' : (0 : ℝ) ≤ (s.uniqueAuthors : ℝ) := by exact_mod_cast hu
  simp only [socialScoreR]
  have h1 : (0 : ℝ) ≤ min ((s.tweetCount : ℝ) * 2.5) 15 :=
    le_min (by nlinarith) (by norm_num)
  have h2 : (0 : ℝ) ≤ min ((s.avgEngagement : ℝ) / 60) 20 :=
    le_min (div_nonneg he' (by norm_num)) (by norm_num)
  have h3 : (0 : ℝ) ≤
      min ((if 0 < s.tweetCount then (s.uniqueAuthors : ℝ) / (s.tweetCount : ℝ) else 0) *
        (s.uniqueAuthors : ℝ)) 5 := by
    refine le_min ?_ (by norm_num)
    split
    · next hc =>
      exact mul_nonneg (div_nonneg hu' (by exact_mod_cast hc.le)) hu'
    · simp
  linarith

theorem devScoreR_nonneg (d : DevSnapshot) (hr : 0 ≤ d.repoCount)
    (hs : 0 ≤ d.totalStars) (ha : 0 ≤ d.avgStars) : 0 ≤ devScoreR d := by
  have hr' : (0 : ℝ) ≤ (d.repoCount : ℝ) := by exact_mod_cast hr
  have hs' : (0 : ℝ) ≤ (d.totalStars : ℝ) := by exact_mod_cast hs
  simp only [devScoreR]
  have h1 : (0 : ℝ) ≤ min ((d.repoCount : ℝ) * 2) 15 :=
    le_min (by nlinarith) (by norm_num)
  have h2 : (0 : ℝ) ≤ min ((d.totalStars : ℝ) / 10) 20 :=
    le_min (div_nonneg hs' (by norm_num)) (by norm_num)
  have h3 : (0 : ℝ) ≤
      (if 0 < d.repoCount ∧ 0 < d.avgStars then
        min ((d.repoCount : ℝ) * Real.logb 2 ((d.avgStars : ℝ) + 1)) 5
      else 0) := by
    split
    · next hc =>
      have hlog : 0 ≤ Real.logb 2 ((d.avgStars : ℝ) + 1) := by
        apply Real.logb_nonneg (by norm_num)
        have : (0 : ℝ) ≤ (d.avgStars : ℝ) := by exact_mod_cast ha
        linarith
      exact le_min (mul_nonneg hr' hlog) (by norm_num)
    · exact le_refl 0
  linarith

theorem crossSourceBonusR_nonneg (s : SocialSnapshot) (d : DevSnapshot)
    (hss : 0 ≤ socialScoreR s) (hds : 0 ≤ devScoreR d) :
    0 ≤ crossSourceBonusR s d := by
  rw [crossSourceBonusR]
  split
  · have hp : (0 : ℝ) ≤ min (socialScoreR s / 30) 1 * min (devScoreR d / 30) 1 * 10 := by
      have h1 : (0 : ℝ) ≤ min (socialScoreR s / 30) 1 :=
        le_min (div_nonneg hss (by norm_num)) (by norm_num)
      have h2 : (0 : ℝ) ≤ min (devScoreR d / 30) 1 :=
        le_min (div_nonneg hds (by norm_num)) (by norm_num)
      positivity
    have := jroundR_nonneg hp
    have : (0 : ℝ) ≤ (jroundR (min (socialScoreR s / 30) 1 * min (devScoreR d / 30) 1 * 10) : ℝ) := by
      exact_mod_cast this
    linarith
  · exact le_refl 0

theorem crossSourceBonusR_bounds (s : SocialSnapshot) (d : DevSnapshot)
    (hss : 0 ≤ socialScoreR s) (hds : 0 ≤ devScoreR d)
    (ht : 0 < s.tweetCount) (hr : 0 < d.repoCount) :
    10 ≤ crossSourceBonusR s d ∧ crossSourceBonusR s d ≤ 20 := by
  rw [crossSourceBonusR, if_pos ⟨ht, hr⟩]
  have h1 : (0 : ℝ) ≤ min (socialScoreR s / 30) 1 :=
    le_min (div_nonneg hss (by norm_num)) (by norm_num)
  have h2 : (0 : ℝ) ≤ min (devScoreR d / 30) 1 :=
    le_min (div_nonneg hds (by norm_num)) (by norm_num)
  have h3 : min (socialScoreR s / 30) 1 ≤ 1 := min_le_right _ _
  have h4 : min (devScoreR d / 30) 1 ≤ 1 := min_le_right _ _
  have hp0 : (0 : ℝ) ≤ min (socialScoreR s / 30) 1 * min (devScoreR d / 30) 1 * 10 := by
    positivity
  have hp10 : min (socialScoreR s / 30) 1 * min (devScoreR d / 30) 1 * 10 ≤ (10 : ℝ) := by
    nlinarith
  have hj0 := jroundR_nonneg hp0
  have hj10 := jroundR_le (n := 10) (by exact_mod_cast hp10)
  constructor
  · have : (0 : ℝ) ≤ (jroundR (min (socialScoreR s / 30) 1 * min (devScoreR d / 30) 1 * 10) : ℝ) := by
      exact_mod_cast hj0
    linarith
  · have : (jroundR (min (socialScoreR s / 30) 1 * min (devScoreR d / 30) 1 * 10) : ℝ) ≤ 10 := by
      exact_mod_cast hj10
    linarith

/-- C2: for all cluster inputs with non-negative counts, engagements and
stars, `computeSignalScore` returns an integer (its codomain is `ℤ`) in
[0, 100], and it equals `round(min(socialScore + devScore +
crossSourceBonus, 100))` — the source's `min(round(·), 100)` coincides with
the spec's `round(min(·, 100))`. -/
theorem computeSignalScore_bounds_and_formula (s : SocialSnapshot) (d : DevSnapshot)
    (ht : 0 ≤ s.tweetCount) (he : 0 ≤ s.avgEngagement) (hu : 0 ≤ s.uniqueAuthors)
    (hr : 0 ≤ d.repoCount) (hs : 0 ≤ d.totalStars) (ha : 0 ≤ d.avgStars) :
    0 ≤ computeSignalScore s d ∧ computeSignalScore s d ≤ 100 ∧
      computeSignalScore s d =
        jroundR (min (socialScoreR s + devScoreR d + crossSourceBonusR s d) 100) := by
  have hss := socialScoreR_nonneg s ht he hu
  have hds := devScoreR_nonneg d hr hs ha
  have hcb := crossSourceBonusR_nonneg s d hss hds
  refine ⟨?_, ?_, ?_⟩
  · rw [computeSignalScore]
    exact le_min (jroundR_nonneg (by linarith)) (by norm_num)
  · exact min_le_right _ _
  · exact min_jroundR_100 _

/-- Witness for C2 at the all-zero snapshots. -/
theorem computeSignalScore_bounds_and_formula_witness :
    (0 : ℚ) ≤ 0 ∧
      (0 ≤ computeSignalScore ⟨0, 0, 0, 0, [], []⟩ ⟨0, 0, 0, [], []⟩ ∧
        computeSignalScore ⟨0, 0, 0, 0, [], []⟩ ⟨0, 0, 0, [], []⟩ ≤ 100 ∧
        computeSignalScore ⟨0, 0, 0, 0, [], []⟩ ⟨0, 0, 0, [], []⟩ =
          jroundR (min (socialScoreR ⟨0, 0, 0, 0, [], []⟩ + devScoreR ⟨0, 0, 0, [], []⟩ +
            crossSourceBonusR ⟨0, 0, 0, 0, [], []⟩ ⟨0, 0, 0, [], []⟩) 100)) :=
  ⟨le_refl 0,
    computeSignalScore_bounds_and_formula ⟨0, 0, 0, 0, [], []⟩ ⟨0, 0, 0, [], []⟩
      (le_refl 0) (le_refl 0) (le_refl 0) (le_refl 0) (le_refl 0) (le_refl 0)⟩

/-- C4: the cross-source bonus is exactly 0 whenever `tweetCount == 0` or
`repoCount == 0`; when both are positive it equals
`10 + round(min(socialScore/30, 1) * min(devScore/30, 1) * 10)` and (for
non-negative cluster inputs) lies in [10, 20]. -/
theorem crossSourceBonus_spec (s : SocialSnapshot) (d : DevSnapshot)
    (ht : 0 ≤ s.tweetCount) (he : 0 ≤ s.avgEngagement) (hu : 0 ≤ s.uniqueAuthors)
    (hr : 0 ≤ d.repoCount) (hs : 0 ≤ d.totalStars) (ha : 0 ≤ d.avgStars) :
    ((s.tweetCount = 0 ∨ d.repoCount = 0) → crossSourceBonusR s d = 0) ∧
      (0 < s.tweetCount → 0 < d.repoCount →
        crossSourceBonusR s d =
            10 + (jroundR (min (socialScoreR s / 30) 1 * min (devScoreR d / 30) 1 * 10) : ℝ) ∧
          10 ≤ crossSourceBonusR s d ∧ crossSourceBonusR s d ≤ 20) := by
  constructor
  · intro h
    rw [crossSourceBonusR, if_neg]
    rintro ⟨h1, h2⟩
    rcases h with h | h
    · rw [h] at h1; exact lt_irrefl 0 h1
    · rw [h] at h2; exact lt_irrefl 0 h2
  · intro hpt hpr
    have hss := socialScoreR_nonneg s ht he hu
    have hds := devScoreR_nonneg d hr hs ha
    exact ⟨by rw [crossSourceBonusR, if_pos ⟨hpt, hpr⟩],
      crossSourceBonusR_bounds s d hss hds hpt hpr⟩

/-- Witness for C4: one tweet, one repo, no stars. -/
theorem crossSourceBonus_spec_witness :
    (0 : ℚ) ≤ 1 ∧
      (((1 : ℚ) = 0 ∨ (1 : ℚ) = 0) →
          crossSourceBonusR ⟨1, 0, 0, 0, [], []⟩ ⟨1, 0, 0, [], []⟩ = 0) ∧
        (0 < (1 : ℚ) → 0 < (1 : ℚ) →
          crossSourceBonusR ⟨1, 0, 0, 0, [], []⟩ ⟨1, 0, 0, [], []⟩ =
              10 + (jroundR (min (socialScoreR ⟨1, 0, 0, 0, [], []⟩ / 30) 1 *
                min (devScoreR ⟨1, 0, 0, [], []⟩ / 30) 1 * 10) : ℝ) ∧
            10 ≤ crossSourceBonusR ⟨1, 0, 0, 0, [], []⟩ ⟨1, 0, 0, [], []⟩ ∧
              crossSourceBonusR ⟨1, 0, 0, 0, [], []⟩ ⟨1, 0, 0, [], []⟩ ≤ 20) :=
  ⟨by norm_num,
    crossSourceBonus_spec ⟨1, 0, 0, 0, [], []⟩ ⟨1, 0, 0, [], []⟩
      (by norm_num) (le_refl 0) (le_refl 0) (by norm_num) (le_refl 0) (le_refl 0)⟩

/-- C5: for count-like inputs (`tweetCount ≥ 0`), `determineStage` evaluates
the five classification rules in the spec's strict order with first match
winning — it coincides with the cascade transcribed from the claim — and in
particular a weak social-only signal is classified `emergence` while a weak
dev-only signal is classified `pre-narrative`. -/
theorem determineStage_matches_spec_order (s : SocialSnapshot) (d : DevSnapshot)
    (ht : 0 ≤ s.tweetCount) :
    determineStage s d = determineStageSpecC5 s d ∧
      (0 < s.tweetCount → d.repoCount ≤ 0 →
        ¬(5 ≤ s.tweetCount ∧ 100 ≤ s.avgEngagement) →
        determineStage s d = .emergence) ∧
      (s.tweetCount = 0 → 0 < d.repoCount →
        ¬(5 ≤ d.repoCount ∧ 20 ≤ d.totalStars) →
        determineStage s d = .preNarrative) := by
  have hiff : (0 < d.repoCount ∧ ¬(0 < s.tweetCount)) ↔ (0 < d.repoCount ∧ s.tweetCount = 0) := by
    constructor
    · rintro ⟨h1, h2⟩
      exact ⟨h1, le_antisymm (not_lt.mp h2) ht⟩
    · rintro ⟨h1, h2⟩
      exact ⟨h1, by rw [h2]; exact lt_irrefl 0⟩
  refine ⟨?_, ?_, ?_⟩
  · rw [determineStage, determineStageSpecC5]
    by_cases h1 : (5 ≤ s.tweetCount ∧ 100 ≤ s.avgEngagement) ∧
        (5 ≤ d.repoCount ∧ 20 ≤ d.totalStars) ∧ 500 ≤ s.avgEngagement ∧ 8 ≤ s.uniqueAuthors
    · rw [if_pos h1, if_pos h1]
    rw [if_neg h1, if_neg h1]
    by_cases h2 : (5 ≤ s.tweetCount ∧ 100 ≤ s.avgEngagement) ∧
        (5 ≤ d.repoCount ∧ 20 ≤ d.totalStars) ∧ 200 ≤ s.avgEngagement
    · rw [if_pos h2, if_pos h2]
    rw [if_neg h2, if_neg h2]
    by_cases h3 : (5 ≤ s.tweetCount ∧ 100 ≤ s.avgEngagement) ∨
        (5 ≤ d.repoCount ∧ 20 ≤ d.totalStars)
    · rw [if_pos h3, if_pos h3]
    rw [if_neg h3, if_neg h3]
    by_cases h4 : 0 < d.repoCount ∧ ¬(0 < s.tweetCount)
    · rw [if_pos h4, if_pos (hiff.mp h4)]
    rw [if_neg h4, if_neg (fun hc => h4 (hiff.mpr hc))]
  · intro hpos hdev hweak
    rw [determineStage]
    rw [if_neg (fun hc => hweak hc.1), if_neg (fun hc => hweak hc.1),
      if_neg (fun hc => hc.elim hweak (fun hd => absurd hd.1 (not_le.mpr (lt_of_le_of_lt hdev (by norm_num))))),
      if_neg (fun hc => absurd hc.1 (not_lt.mpr hdev)), if_pos hpos]
  · intro hzero hdev hweak
    rw [determineStage]
    have hns : ¬(5 ≤ s.tweetCount ∧ 100 ≤ s.avgEngagement) := by
      rintro ⟨h5, _⟩
      rw [hzero] at h5
      norm_num at h5
    rw [if_neg (fun hc => hns hc.1), if_neg (fun hc => hns hc.1),
      if_neg (fun hc => hc.elim hns hweak),
      if_pos ⟨hdev, by rw [hzero]; exact lt_irrefl 0⟩]

/-- Witness for C5 at a weak dev-only input: one repo, no tweets. -/
theorem determineStage_matches_spec_order_witness :
    (0 : ℚ) ≤ 0 ∧
      (determineStage ⟨0, 0, 0, 0, [], []⟩ ⟨1, 0, 0, [], []⟩ =
          determineStageSpecC5 ⟨0, 0, 0, 0, [], []⟩ ⟨1, 0, 0, [], []⟩ ∧
        (0 < (0 : ℚ) → (1 : ℚ) ≤ 0 → ¬(5 ≤ (0 : ℚ) ∧ 100 ≤ (0 : ℚ)) →
          determineStage ⟨0, 0, 0, 0, [], []⟩ ⟨1, 0, 0, [], []⟩ = .emergence) ∧
        ((0 : ℚ) = 0 → 0 < (1 : ℚ) → ¬(5 ≤ (1 : ℚ) ∧ 20 ≤ (0 : ℚ)) →
          determineStage ⟨0, 0, 0, 0, [], []⟩ ⟨1, 0, 0, [], []⟩ = .preNarrative)) :=
  ⟨le_refl 0, determineStage_matches_spec_order ⟨0, 0, 0, 0, [], []⟩ ⟨1, 0, 0, [], []⟩ (le_refl 0)⟩

/-- C10: with `tweetCount == 0` or `repoCount == 0` (in particular when one
source cluster is absent and replaced by the all-zero snapshot),
`determineStage` never returns `acceleration` or `peak`; those two stages
require `tweetCount ≥ 5` and `repoCount ≥ 5` simultaneously. -/
theorem determineStage_acceleration_peak_need_both (s : SocialSnapshot) (d : DevSnapshot) :
    ((s.tweetCount = 0 ∨ d.repoCount = 0) →
      determineStage s d ≠ .acceleration ∧ determineStage s d ≠ .peak) ∧
      ((determineStage s d = .acceleration ∨ determineStage s d = .peak) →
        5 ≤ s.tweetCount ∧ 5 ≤ d.repoCount) := by
  have key : (determineStage s d = .acceleration ∨ determineStage s d = .peak) →
      5 ≤ s.tweetCount ∧ 5 ≤ d.repoCount := by
    intro hst
    rw [determineStage] at hst
    by_cases h1 : (5 ≤ s.tweetCount ∧ 100 ≤ s.avgEngagement) ∧
        (5 ≤ d.repoCount ∧ 20 ≤ d.totalStars) ∧ 500 ≤ s.avgEngagement ∧ 8 ≤ s.uniqueAuthors
    · exact ⟨h1.1.1, h1.2.1.1⟩
    rw [if_neg h1] at hst
    by_cases h2 : (5 ≤ s.tweetCount ∧ 100 ≤ s.avgEngagement) ∧
        (5 ≤ d.repoCount ∧ 20 ≤ d.totalStars) ∧ 200 ≤ s.avgEngagement
    · exact ⟨h2.1.1, h2.2.1.1⟩
    rw [if_neg h2] at hst
    exfalso
    by_cases h3 : (5 ≤ s.tweetCount ∧ 100 ≤ s.avgEngagement) ∨
        (5 ≤ d.repoCount ∧ 20 ≤ d.totalStars)
    · rw [if_pos h3] at hst
      rcases hst with hst | hst <;> exact Stage.noConfusion hst
    rw [if_neg h3] at hst
    by_cases h4 : 0 < d.repoCount ∧ ¬(0 < s.tweetCount)
    · rw [if_pos h4] at hst
      rcases hst with hst | hst <;> exact Stage.noConfusion hst
    rw [if_neg h4] at hst
    by_cases h5 : 0 < s.tweetCount
    · rw [if_pos h5] at hst
      rcases hst with hst | hst <;> exact Stage.noConfusion hst
    · rw [if_neg h5] at hst
      rcases hst with hst | hst <;> exact Stage.noConfusion hst
  refine ⟨?_, key⟩
  intro hz
  constructor
  · intro hacc
    rcases key (Or.inl hacc) with ⟨h5t, h5r⟩
    rcases hz with hz | hz
    · rw [hz] at h5t; norm_num at h5t
    · rw [hz] at h5r; norm_num at h5r
  · intro hpk
    rcases key (Or.inr hpk) with ⟨h5t, h5r⟩
    rcases hz with hz | hz
    · rw [hz] at h5t; norm_num at h5t
    · rw [hz] at h5r; norm_num at h5r

/-- Witness for C10 at the all-zero social snapshot and a strong developer
snapshot. -/
theorem determineStage_acceleration_peak_need_both_witness :
    determineStage ⟨0, 0, 0, 0, [], []⟩ ⟨9, 100, 10, [], []⟩ ≠ .acceleration ∧
      determineStage ⟨0, 0, 0, 0, [], []⟩ ⟨9, 100, 10, [], []⟩ ≠ .peak :=
  (determineStage_acceleration_peak_need_both ⟨0, 0, 0, 0, [], []⟩ ⟨9, 100, 10, [], []⟩).1
    (Or.inl rfl)

/-- C6: for all cluster inputs, `computeConfidence` lies in [0.25, 0.95], is
an exact 2-decimal value, and equals the base 0.25 plus the ten independent
additive threshold bonuses, capped at 0.95. -/
theorem computeConfidence_spec (s : SocialSnapshot) (d : DevSnapshot) :
    computeConfidence s d =
        min (0.25 + (if 3 ≤ s.tweetCount then (0.08 : ℚ) else 0) +
          (if 10 ≤ s.tweetCount then (0.07 : ℚ) else 0) +
          (if 100 ≤ s.avgEngagement then (0.08 : ℚ) else 0) +
          (if 300 ≤ s.avgEngagement then (0.05 : ℚ) else 0) +
          (if 3 ≤ s.uniqueAuthors then (0.08 : ℚ) else 0) +
          (if 8 ≤ s.uniqueAuthors then (0.07 : ℚ) else 0) +
          (if 3 ≤ d.repoCount then (0.08 : ℚ) else 0) +
          (if 10 ≤ d.repoCount then (0.07 : ℚ) else 0) +
          (if 50 ≤ d.totalStars then (0.05 : ℚ) else 0) +
          (if 0 < s.tweetCount ∧ 0 < d.repoCount then (0.12 : ℚ) else 0)) 0.95 ∧
      (0.25 : ℚ) ≤ computeConfidence s d ∧ computeConfidence s d ≤ 0.95 ∧
        (computeConfidence s d * 100).den = 1 := by
  have hbonus : ∀ (P : Prop) [Decidable P] (x : ℚ) (n : ℤ), x = (n : ℚ) / 100 → 0 ≤ n →
      ∃ m : ℤ, (if P then x else 0) = (m : ℚ) / 100 ∧ 0 ≤ m ∧ m ≤ n := by
    intro P _ x n hx hn
    split
    · exact ⟨n, hx, hn, le_refl n⟩
    · exact ⟨0, by norm_num, le_refl 0, hn⟩
  obtain ⟨m1, e1, l1, u1⟩ := hbonus (3 ≤ s.tweetCount) 0.08 8 (by norm_num) (by norm_num)
  obtain ⟨m2, e2, l2, u2⟩ := hbonus (10 ≤ s.tweetCount) 0.07 7 (by norm_num) (by norm_num)
  obtain ⟨m3, e3, l3, u3⟩ := hbonus (100 ≤ s.avgEngagement) 0.08 8 (by norm_num) (by norm_num)
  obtain ⟨m4, e4, l4, u4⟩ := hbonus (300 ≤ s.avgEngagement) 0.05 5 (by norm_num) (by norm_num)
  obtain ⟨m5, e5, l5, u5⟩ := hbonus (3 ≤ s.uniqueAuthors) 0.08 8 (by norm_num) (by norm_num)
  obtain ⟨m6, e6, l6, u6⟩ := hbonus (8 ≤ s.uniqueAuthors) 0.07 7 (by norm_num) (by norm_num)
  obtain ⟨m7, e7, l7, u7⟩ := hbonus (3 ≤ d.repoCount) 0.08 8 (by norm_num) (by norm_num)
  obtain ⟨m8, e8, l8, u8⟩ := hbonus (10 ≤ d.repoCount) 0.07 7 (by norm_num) (by norm_num)
  obtain ⟨m9, e9, l9, u9⟩ := hbonus (50 ≤ d.totalStars) 0.05 5 (by norm_num) (by norm_num)
  obtain ⟨m10, e10, l10, u10⟩ :=
    hbonus (0 < s.tweetCount ∧ 0 < d.repoCount) 0.12 12 (by norm_num) (by norm_num)
  simp only [computeConfidence, addIf_eq]
  rw [e1, e2, e3, e4, e5, e6, e7, e8, e9, e10]
  have hc : (0.25 : ℚ) + (m1 : ℚ) / 100 + (m2 : ℚ) / 100 + (m3 : ℚ) / 100 + (m4 : ℚ) / 100 +
      (m5 : ℚ) / 100 + (m6 : ℚ) / 100 + (m7 : ℚ) / 100 + (m8 : ℚ) / 100 + (m9 : ℚ) / 100 +
      (m10 : ℚ) / 100 =
      ((25 + m1 + m2 + m3 + m4 + m5 + m6 + m7 + m8 + m9 + m10 : ℤ) : ℚ) / 100 := by
    push_cast
    ring
  rw [hc]
  have hmul : ((25 + m1 + m2 + m3 + m4 + m5 + m6 + m7 + m8 + m9 + m10 : ℤ) : ℚ) / 100 * 100 =
      ((25 + m1 + m2 + m3 + m4 + m5 + m6 + m7 + m8 + m9 + m10 : ℤ) : ℚ) := by
    field_simp
  rw [hmul, jround_intCast]
  have hN0 : (25 : ℚ) ≤ ((25 + m1 + m2 + m3 + m4 + m5 + m6 + m7 + m8 + m9 + m10 : ℤ) : ℚ) := by
    have q1 : (0 : ℚ) ≤ (m1 : ℚ) := by exact_mod_cast l1
    have q2 : (0 : ℚ) ≤ (m2 : ℚ) := by exact_mod_cast l2
    have q3 : (0 : ℚ) ≤ (m3 : ℚ) := by exact_mod_cast l3
    have q4 : (0 : ℚ) ≤ (m4 : ℚ) := by exact_mod_cast l4
    have q5 : (0 : ℚ) ≤ (m5 : ℚ) := by exact_mod_cast l5
    have q6 : (0 : ℚ) ≤ (m6 : ℚ) := by exact_mod_cast l6
    have q7 : (0 : ℚ) ≤ (m7 : ℚ) := by exact_mod_cast l7
    have q8 : (0 : ℚ) ≤ (m8 : ℚ) := by exact_mod_cast l8
    have q9 : (0 : ℚ) ≤ (m9 : ℚ) := by exact_mod_cast l9
    have q10 : (0 : ℚ) ≤ (m10 : ℚ) := by exact_mod_cast l10
    push_cast
    linarith
  refine ⟨rfl, ?_, min_le_right _ _, ?_⟩
  · refine le_min ?_ (by norm_num)
    linarith
  · rcases le_total (((25 + m1 + m2 + m3 + m4 + m5 + m6 + m7 + m8 + m9 + m10 : ℤ) : ℚ) / 100)
        0.95 with h | h
    · rw [min_eq_left h, hmul]
      exact Rat.den_intCast _
    · rw [min_eq_right h]
      norm_num

/-! ### Monotonicity of the composite score (claim C3) -/

theorem socialScoreR_mono_avgEngagement (s : SocialSnapshot) (e' : ℚ)
    (h : s.avgEngagement ≤ e') :
    socialScoreR s ≤ socialScoreR {s with avgEngagement := e'} := by
  have h' : (s.avgEngagement : ℝ) ≤ (e' : ℝ) := by exact_mod_cast h
  simp only [socialScoreR]
  gcongr

theorem socialScoreR_mono_tweetCount_zero_authors (s : SocialSnapshot) (t' : ℚ)
    (hu : s.uniqueAuthors = 0) (h : s.tweetCount ≤ t') :
    socialScoreR s ≤ socialScoreR {s with tweetCount := t'} := by
  have h' : (s.tweetCount : ℝ) ≤ (t' : ℝ) := by exact_mod_cast h
  simp only [socialScoreR, hu]
  push_cast
  simp only [mul_zero]
  gcongr

theorem crossSourceBonusR_mono (s s' : SocialSnapshot) (d : DevSnapshot)
    (hss0 : 0 ≤ socialScoreR s) (hds : 0 ≤ devScoreR d)
    (hposs : 0 < s.tweetCount → 0 < s'.tweetCount)
    (hss : socialScoreR s ≤ socialScoreR s') :
    crossSourceBonusR s d ≤ crossSourceBonusR s' d := by
  by_cases hc : 0 < s.tweetCount ∧ 0 < d.repoCount
  · have hc' : 0 < s'.tweetCount ∧ 0 < d.repoCount := ⟨hposs hc.1, hc.2⟩
    rw [crossSourceBonusR, crossSourceBonusR, if_pos hc, if_pos hc']
    have h2 : (0 : ℝ) ≤ min (devScoreR d / 30) 1 :=
      le_min (div_nonneg hds (by norm_num)) (by norm_num)
    have h1 : min (socialScoreR s / 30) 1 ≤ min (socialScoreR s' / 30) 1 :=
      min_le_min (by linarith) le_rfl
    have key : min (socialScoreR s / 30) 1 * min (devScoreR d / 30) 1 * 10 ≤
        min (socialScoreR s' / 30) 1 * min (devScoreR d / 30) 1 * 10 :=
      mul_le_mul_of_nonneg_right (mul_le_mul_of_nonneg_right h1 h2) (by norm_num)
    have hj := jroundR_mono key
    have hj' : (jroundR (min (socialScoreR s / 30) 1 * min (devScoreR d / 30) 1 * 10) : ℝ) ≤
        (jroundR (min (socialScoreR s' / 30) 1 * min (devScoreR d / 30) 1 * 10) : ℝ) := by
      exact_mod_cast hj
    linarith
  · rw [crossSourceBonusR, if_neg hc]
    exact crossSourceBonusR_nonneg s' d (le_trans hss0 hss) hds

/-- C3 amended: holding the developer snapshot fixed, increasing
`avgEngagement` never decreases the composite score; increasing `tweetCount`
never decreases it when `uniqueAuthors = 0`.  (As the claim stands it is
false: with `uniqueAuthors > 0` the diversity bonus `uniqueAuthors² /
tweetCount` shrinks as `tweetCount` grows, and the score can drop — see the
counterexample.) -/
theorem signalScore_monotone_amended (s : SocialSnapshot) (d : DevSnapshot) (e' t' : ℚ)
    (ht : 0 ≤ s.tweetCount) (he : 0 ≤ s.avgEngagement) (hu : 0 ≤ s.uniqueAuthors)
    (hr : 0 ≤ d.repoCount) (hs : 0 ≤ d.totalStars) (ha : 0 ≤ d.avgStars) :
    (s.avgEngagement ≤ e' →
      computeSignalScore s d ≤ computeSignalScore {s with avgEngagement := e'} d) ∧
      (s.uniqueAuthors = 0 → s.tweetCount ≤ t' →
        computeSignalScore s d ≤ computeSignalScore {s with tweetCount := t'} d) := by
  have hss0 := socialScoreR_nonneg s ht he hu
  have hds := devScoreR_nonneg d hr hs ha
  constructor
  · intro hee
    have hss := socialScoreR_mono_avgEngagement s e' hee
    have hcb := crossSourceBonusR_mono s {s with avgEngagement := e'} d hss0 hds
      (fun h => h) hss
    rw [computeSignalScore, computeSignalScore]
    exact min_le_min (jroundR_mono (by linarith)) le_rfl
  · intro hzero htt
    have hss := socialScoreR_mono_tweetCount_zero_authors s t' hzero htt
    have hcb := crossSourceBonusR_mono s {s with tweetCount := t'} d hss0 hds
      (fun h => lt_of_lt_of_le h htt) hss
    rw [computeSignalScore, computeSignalScore]
    exact min_le_min (jroundR_mono (by linarith)) le_rfl

/-- Witness for C3 (amended): engagement 0 → 60 and tweet count 1 → 2 at
zero authors. -/
theorem signalScore_monotone_amended_witness :
    (0 : ℚ) ≤ 1 ∧
      (((1 : ℚ) ≤ 60) →
          computeSignalScore ⟨1, 1, 0, 0, [], []⟩ ⟨1, 1, 1, [], []⟩ ≤
            computeSignalScore ⟨1, 60, 0, 0, [], []⟩ ⟨1, 1, 1, [], []⟩) ∧
        ((0 : ℚ) = 0 → (1 : ℚ) ≤ 2 →
          computeSignalScore ⟨1, 1, 0, 0, [], []⟩ ⟨1, 1, 1, [], []⟩ ≤
            computeSignalScore ⟨2, 1, 0, 0, [], []⟩ ⟨1, 1, 1, [], []⟩) :=
  ⟨by norm_num,
    signalScore_monotone_amended ⟨1, 1, 0, 0, [], []⟩ ⟨1, 1, 1, [], []⟩ 60 2
      (by norm_num) (by norm_num) (le_refl 0) (by norm_num) (by norm_num) (by norm_num)⟩

/-- C3 counterexample: with the developer snapshot fixed (all-zero) and
`uniqueAuthors = 5`, raising `tweetCount` from 6 to 12 drops the composite
score from 19 to 17, so increasing `tweetCount` can decrease the score. -/
theorem signalScore_tweetCount_not_monotone :
    computeSignalScore ⟨12, 0, 0, 5, [], []⟩ ⟨0, 0, 0, [], []⟩ <
      computeSignalScore ⟨6, 0, 0, 5, [], []⟩ ⟨0, 0, 0, [], []⟩ := by
  have hd : devScoreR ⟨0, 0, 0, [], []⟩ = 0 := by
    simp only [devScoreR]
    push_cast
    norm_num [min_def]
  have hcb1 : crossSourceBonusR ⟨6, 0, 0, 5, [], []⟩ ⟨0, 0, 0, [], []⟩ = 0 := by
    rw [crossSourceBonusR, if_neg (by decide)]
  have hcb2 : crossSourceBonusR ⟨12, 0, 0, 5, [], []⟩ ⟨0, 0, 0, [], []⟩ = 0 := by
    rw [crossSourceBonusR, if_neg (by decide)]
  have hs1 : socialScoreR ⟨6, 0, 0, 5, [], []⟩ = 115 / 6 := by
    simp only [socialScoreR]
    push_cast
    norm_num [min_def]
  have hs2 : socialScoreR ⟨12, 0, 0, 5, [], []⟩ = 205 / 12 := by
    simp only [socialScoreR]
    push_cast
    norm_num [min_def]
  have hj1 : jroundR ((115 : ℝ) / 6 + 0 + 0) = 19 := by
    rw [jroundR, Int.floor_eq_iff]
    norm_num
  have hj2 : jroundR ((205 : ℝ) / 12 + 0 + 0) = 17 := by
    rw [jroundR, Int.floor_eq_iff]
    norm_num
  rw [computeSignalScore, computeSignalScore, hd, hcb1, hcb2, hs1, hs2, hj1, hj2]
  norm_num

/-- C8 (code bug): the snapshot builder does not treat NaN as 0.  On a found
cluster every numeric field is copied verbatim, so a NaN `tweetCount` (and
even a present-but-NaN `uniqueAuthors`, which `?? 0` does not catch) flows
unchanged into the snapshot and from there into the scoring arithmetic. -/
theorem snapshotBuilder_propagates_nan :
    (buildSocialCountsJS
        ⟨"Privacy & Confidential Computing", .nan, .num 50, .num 100, some .nan⟩).tweetCount =
        JSNum.nan ∧
      (buildSocialCountsJS
          ⟨"Privacy & Confidential Computing", .nan, .num 50, .num 100, some .nan⟩).tweetCount ≠
          JSNum.num 0 ∧
        (buildSocialCountsJS
            ⟨"Privacy & Confidential Computing", .nan, .num 50, .num 100,
              some .nan⟩).uniqueAuthors = JSNum.nan :=
  ⟨rfl, by decide, rfl⟩

/-- C7 amended: both topic clusterers emit their clusters sorted descending
by the weighted strength the code computes — `tweetCount * 10 +
avgEngagement` for the social stream (the *average*, not the total,
engagement) and `repoCount * 5 + totalStars` for the developer stream. -/
theorem clusterers_sorted_by_weighted_strength
    (pats : List (String × List (String → Bool))) (signals : List XSignal)
    (gpats : List (String × List (String → Bool))) (repos : List GHRepo) :
    (clusterTweets pats signals).Pairwise
        (fun a b => b.tweetCount * 10 + b.avgEngagement ≤ a.tweetCount * 10 + a.avgEngagement) ∧
      (clusterReposByTopic gpats repos).Pairwise
        (fun a b => b.repoCount * 5 + b.totalStars ≤ a.repoCount * 5 + a.totalStars) := by
  constructor
  · simp only [clusterTweets]
    exact sortDesc_sorted _ _
  · simp only [clusterReposByTopic]
    exact sortDesc_sorted _ _

/-- Witness for C7 (amended) at a concrete two-topic table and three tweets. -/
theorem clusterers_sorted_by_weighted_strength_witness :
    (clusterTweets
        [("Topic A", [fun t => charsLead "aaa".toList t.toList]),
         ("Topic B", [fun t => charsLead "bbb".toList t.toList])]
        [⟨"aaaa", "@a", "a1", 0, 0, 0, "", "t1", "q", 100⟩,
         ⟨"bbbb", "@b", "b1", 0, 0, 0, "", "t2", "q", 60⟩,
         ⟨"bbbb", "@c", "c1", 0, 0, 0, "", "t3", "q", 60⟩]).Pairwise
        (fun a b => b.tweetCount * 10 + b.avgEngagement ≤ a.tweetCount * 10 + a.avgEngagement) ∧
      (clusterReposByTopic [] []).Pairwise
        (fun a b => b.repoCount * 5 + b.totalStars ≤ a.repoCount * 5 + a.totalStars) :=
  clusterers_sorted_by_weighted_strength
    [("Topic A", [fun t => charsLead "aaa".toList t.toList]),
     ("Topic B", [fun t => charsLead "bbb".toList t.toList])]
    [⟨"aaaa", "@a", "a1", 0, 0, 0, "", "t1", "q", 100⟩,
     ⟨"bbbb", "@b", "b1", 0, 0, 0, "", "t2", "q", 60⟩,
     ⟨"bbbb", "@c", "c1", 0, 0, 0, "", "t3", "q", 60⟩] [] []

/-- C7 counterexample: the social clusterer does NOT sort by `tweetCount *
10 + totalEngagement`.  Topic A (1 tweet, engagement 100) precedes topic B
(2 tweets, total engagement 120) because the code keys on the average, but
the claim's total-engagement key would rank B (140) above A (110). -/
theorem clusterTweets_not_sorted_by_total :
    ¬ (clusterTweets
        [("Topic A", [fun t => charsLead "aaa".toList t.toList]),
         ("Topic B", [fun t => charsLead "bbb".toList t.toList])]
        [⟨"aaaa", "@a", "a1", 0, 0, 0, "", "t1", "q", 100⟩,
         ⟨"bbbb", "@b", "b1", 0, 0, 0, "", "t2", "q", 60⟩,
         ⟨"bbbb", "@c", "c1", 0, 0, 0, "", "t3", "q", 60⟩]).Pairwise
      (fun a b =>
        b.tweetCount * 10 + b.totalEngagement ≤ a.tweetCount * 10 + a.totalEngagement) := by
  with_unfolding_all decide

/-! ### The word-frequency map (claim C9) -/

theorem mem_foldl_firstSeen (l : List String) :
    ∀ (acc : List String) (x : String),
      x ∈ l.foldl (fun acc w => if w ∈ acc then acc else acc ++ [w]) acc ↔
        x ∈ acc ∨ x ∈ l := by
  induction l with
  | nil => intro acc x; simp
  | cons w l ih =>
    intro acc x
    rw [List.foldl_cons, ih]
    by_cases hw : w ∈ acc
    · rw [if_pos hw]
      simp only [List.mem_cons]
      constructor
      · rintro (h | h)
        · exact Or.inl h
        · exact Or.inr (Or.inr h)
      · rintro (h | h | h)
        · exact Or.inl h
        · exact Or.inl (h ▸ hw)
        · exact Or.inr h
    · rw [if_neg hw]
      simp only [List.mem_append, List.mem_singleton, List.mem_cons]
      tauto

theorem mem_firstSeen (ws : List String) (x : String) : x ∈ firstSeen ws ↔ x ∈ ws := by
  rw [firstSeen, mem_foldl_firstSeen]
  simp

theorem nodup_foldl_firstSeen (l : List String) :
    ∀ acc : List String, acc.Nodup →
      (l.foldl (fun acc w => if w ∈ acc then acc else acc ++ [w]) acc).Nodup := by
  induction l with
  | nil => intro acc h; simpa using h
  | cons w l ih =>
    intro acc hacc
    rw [List.foldl_cons]
    apply ih
    split
    · exact hacc
    · next hw =>
      exact hacc.append (List.nodup_singleton w) (by simpa using hw)

theorem nodup_firstSeen (ws : List String) : (firstSeen ws).Nodup :=
  nodup_foldl_firstSeen ws [] List.nodup_nil

theorem firstSeen_append_singleton (ws : List String) (w : String) :
    firstSeen (ws ++ [w]) =
      if w ∈ firstSeen ws then firstSeen ws else firstSeen ws ++ [w] := by
  rw [firstSeen, firstSeen, List.foldl_append, List.foldl_cons, List.foldl_nil]

theorem indexOf_append_self {w : String} :
    ∀ {pre : List String}, w ∉ pre → List.indexOf w (pre ++ [w]) = pre.length := by
  intro pre
  induction pre with
  | nil => intro _; simp [List.indexOf_cons_self]
  | cons a pre ih =>
    intro hw
    have ha : a ≠ w := fun h => hw (h ▸ List.mem_cons_self a pre)
    rw [List.cons_append, List.indexOf_cons_ne _ ha, ih (fun h => hw (List.mem_cons_of_mem a h))]
    rfl

theorem pairwise_firstSeen (ws : List String) :
    (firstSeen ws).Pairwise (fun a b => List.indexOf a ws < List.indexOf b ws) := by
  induction ws using List.reverseRecOn with
  | nil => simp [firstSeen]
  | append_singleton ws w ih =>
    rw [firstSeen_append_singleton]
    have hkeep : ∀ a ∈ firstSeen ws, List.indexOf a (ws ++ [w]) = List.indexOf a ws :=
      fun a ha => List.indexOf_append_of_mem ((mem_firstSeen ws a).mp ha)
    split
    · next hw =>
      refine ih.imp_of_mem ?_
      intro a b ha hb h
      rw [hkeep a ha, hkeep b hb]
      exact h
    · next hw =>
      have hwws : w ∉ ws := fun h => hw ((mem_firstSeen ws w).mpr h)
      rw [List.pairwise_append]
      refine ⟨ih.imp_of_mem (fun {a b} ha hb h => by rw [hkeep a ha, hkeep b hb]; exact h),
        List.pairwise_singleton _ _, ?_⟩
      intro a ha b hb
      rw [List.mem_singleton] at hb
      subst hb
      rw [hkeep a ha, indexOf_append_self hwws]
      exact List.indexOf_lt_length.mpr ((mem_firstSeen ws a).mp ha)

theorem bump_map (w : String) (f : String → ℕ) :
    ∀ l : List String, l.Nodup →
      bump (l.map fun v => (v, f v)) w =
        if w ∈ l then l.map (fun v => (v, if v = w then f v + 1 else f v))
        else l.map (fun v => (v, f v)) ++ [(w, 1)] := by
  intro l
  induction l with
  | nil => intro _; simp [bump]
  | cons a l ih =>
    intro hnd
    rcases List.nodup_cons.mp hnd with ⟨hal, hl⟩
    simp only [List.map_cons, bump]
    by_cases haw : a = w
    · rw [if_pos haw, if_pos (show w ∈ a :: l from by rw [← haw]; exact List.mem_cons_self a l),
        if_pos haw]
      congr 1
      apply List.map_congr_left
      intro v hv
      have hvw : ¬(v = w) := fun h => hal ((haw.trans h.symm) ▸ hv)
      rw [if_neg hvw]
    · rw [if_neg haw]
      by_cases hwl : w ∈ l
      · rw [ih hl, if_pos hwl, if_pos (List.mem_cons_of_mem a hwl), if_neg haw]
      · rw [ih hl, if_neg hwl,
          if_neg (fun h => (List.mem_cons.mp h).elim (fun h' => haw h'.symm) hwl)]
        exact (List.cons_append _ _ _).symm

theorem buildFreq_eq (ws : List String) :
    buildFreq ws = (firstSeen ws).map (fun v => (v, ws.count v)) := by
  induction ws using List.reverseRecOn with
  | nil => simp [buildFreq, firstSeen]
  | append_singleton ws w ih =>
    rw [buildFreq, List.foldl_append, List.foldl_cons, List.foldl_nil, ← buildFreq, ih,
      bump_map w _ _ (nodup_firstSeen ws), firstSeen_append_singleton]
    have hcnt : ∀ v, List.count v (ws ++ [w]) = List.count v ws + if v = w then 1 else 0 := by
      intro v
      rw [List.count_append]
      congr 1
      by_cases hvw : v = w
      · subst hvw
        simp
      · simp [List.count_singleton', hvw]
    by_cases hw : w ∈ firstSeen ws
    · rw [if_pos hw, if_pos hw]
      apply List.map_congr_left
      intro v hv
      rw [hcnt v]
      by_cases hvw : v = w
      · rw [if_pos hvw, if_pos hvw]
      · rw [if_neg hvw, if_neg hvw, Nat.add_zero]
    · rw [if_neg hw, if_neg hw, List.map_append]
      have hwws : w ∉ ws := fun h => hw ((mem_firstSeen ws w).mpr h)
      congr 1
      · apply List.map_congr_left
        intro v hv
        have hvw : v ≠ w := fun h => hwws (h ▸ (mem_firstSeen ws v).mp hv)
        rw [hcnt v, if_neg hvw, Nat.add_zero]
      · rw [List.map_singleton, hcnt w, if_pos rfl,
          List.count_eq_zero.mpr hwws]

/-- Everything the key-term pipeline guarantees downstream of tokenization:
at most 10 terms, every term a stream token of frequency ≥ 2, and the order
strictly descending by frequency with ties in first-seen order. -/
theorem keyTermsOfTokens_spec (tokens : List String) :
    (keyTermsOfTokens tokens).length ≤ 10 ∧
      (∀ t ∈ keyTermsOfTokens tokens, t ∈ tokens ∧ 2 ≤ tokens.count t) ∧
      (keyTermsOfTokens tokens).Pairwise (fun a b =>
        tokens.count b < tokens.count a ∨
          (tokens.count a = tokens.count b ∧
            List.indexOf a tokens < List.indexOf b tokens)) := by
  have hmemFL : ∀ p ∈ (buildFreq tokens).filter (fun p => decide (2 ≤ p.2)),
      p.1 ∈ tokens ∧ p.2 = tokens.count p.1 ∧ 2 ≤ p.2 := by
    intro p hp
    rcases List.mem_filter.mp hp with ⟨hpb, hpred⟩
    rw [buildFreq_eq] at hpb
    rcases List.mem_map.mp hpb with ⟨v, hv, hveq⟩
    refine ⟨?_, ?_, of_decide_eq_true hpred⟩
    · rw [← hveq]
      exact (mem_firstSeen tokens v).mp hv
    · rw [← hveq]
  have hpairFL : ((buildFreq tokens).filter (fun p => decide (2 ≤ p.2))).Pairwise
      (fun p q => List.indexOf p.1 tokens < List.indexOf q.1 tokens) := by
    apply List.Pairwise.filter
    rw [buildFreq_eq, List.pairwise_map]
    exact pairwise_firstSeen tokens
  have hpairSL := sortDesc_pairwise (fun p : String × ℕ => p.2)
    (fun p q => List.indexOf p.1 tokens < List.indexOf q.1 tokens) _ hpairFL
  have hmemTake : ∀ p ∈ (sortDesc (fun p : String × ℕ => p.2)
      ((buildFreq tokens).filter (fun p => decide (2 ≤ p.2)))).take 10,
      p.1 ∈ tokens ∧ p.2 = tokens.count p.1 ∧ 2 ≤ p.2 := by
    intro p hp
    have hp' := (List.take_sublist 10 _).mem hp
    exact hmemFL p ((mem_sortDesc _ p _).mp hp')
  refine ⟨?_, ?_, ?_⟩
  · simp only [keyTermsOfTokens, List.length_map]
    exact List.length_take_le 10 _
  · intro t ht
    simp only [keyTermsOfTokens] at ht
    rcases List.mem_map.mp ht with ⟨p, hp, rfl⟩
    rcases hmemTake p hp with ⟨h1, h2, h3⟩
    exact ⟨h1, h2 ▸ h3⟩
  · simp only [keyTermsOfTokens]
    rw [List.pairwise_map]
    have hTake := hpairSL.sublist (List.take_sublist 10 _)
    refine hTake.imp_of_mem ?_
    intro p q hp hq hpq
    rcases hmemTake p hp with ⟨_, hp2, _⟩
    rcases hmemTake q hq with ⟨_, hq2, _⟩
    rcases hpq with h | ⟨heq, hidx⟩
    · exact Or.inl (by rw [← hp2, ← hq2]; exact h)
    · exact Or.inr ⟨by rw [← hp2, ← hq2]; exact heq, hidx⟩

theorem tweetTokens_prop (signals : List XSignal) :
    ∀ w ∈ tweetTokens signals, 3 < w.length ∧ w ∉ STOP_WORDS_TWEETS := by
  intro w hw
  rw [tweetTokens] at hw
  rcases List.mem_flatten.mp hw with ⟨l, hl, hwl⟩
  rcases List.mem_map.mp hl with ⟨s, _, rfl⟩
  rw [tokenizeTweetText] at hwl
  rcases List.mem_filter.mp hwl with ⟨_, hpred⟩
  obtain ⟨h1, h2⟩ := Bool.and_eq_true_iff.mp hpred
  refine ⟨of_decide_eq_true h1, ?_⟩
  intro hmem
  have h3 : STOP_WORDS_TWEETS.contains w = true := List.elem_iff.mpr hmem
  rw [h3] at h2
  exact Bool.noConfusion h2

theorem repoTokens_prop (repos : List GHRepo) :
    ∀ w ∈ repoTokens repos, 3 < w.length ∧ w ∉ STOP_WORDS_REPOS := by
  intro w hw
  rw [repoTokens] at hw
  rcases List.mem_flatten.mp hw with ⟨l, hl, hwl⟩
  rcases List.mem_map.mp hl with ⟨r, _, rfl⟩
  rw [tokenizeRepoText] at hwl
  rcases List.mem_filter.mp hwl with ⟨_, hpred⟩
  obtain ⟨h1, h2⟩ := Bool.and_eq_true_iff.mp hpred
  refine ⟨of_decide_eq_true h1, ?_⟩
  intro hmem
  have h3 : STOP_WORDS_REPOS.contains w = true := List.elem_iff.mpr hmem
  rw [h3] at h2
  exact Bool.noConfusion h2

/-- C9: both `extractKeyTerms` variants return at most 10 tokens, each of
length > 3, none in the stream's stop-word set, each with frequency ≥ 2
across the items' token stream, sorted descending by frequency with ties in
first-seen order; re-running on the same input is the identical list (the
embedding is a pure function of its input). -/
theorem extractKeyTerms_spec (signals : List XSignal) (repos : List GHRepo) :
    ((extractKeyTerms signals).length ≤ 10 ∧
      (∀ t ∈ extractKeyTerms signals, 3 < t.length ∧ t ∉ STOP_WORDS_TWEETS ∧
        2 ≤ (tweetTokens signals).count t) ∧
      (extractKeyTerms signals).Pairwise (fun a b =>
        (tweetTokens signals).count b < (tweetTokens signals).count a ∨
          ((tweetTokens signals).count a = (tweetTokens signals).count b ∧
            List.indexOf a (tweetTokens signals) < List.indexOf b (tweetTokens signals))) ∧
      extractKeyTerms signals = extractKeyTerms signals) ∧
      ((extractKeyTermsRepos repos).length ≤ 10 ∧
        (∀ t ∈ extractKeyTermsRepos repos, 3 < t.length ∧ t ∉ STOP_WORDS_REPOS ∧
          2 ≤ (repoTokens repos).count t) ∧
        (extractKeyTermsRepos repos).Pairwise (fun a b =>
          (repoTokens repos).count b < (repoTokens repos).count a ∨
            ((repoTokens repos).count a = (repoTokens repos).count b ∧
              List.indexOf a (repoTokens repos) < List.indexOf b (repoTokens repos))) ∧
        extractKeyTermsRepos repos = extractKeyTermsRepos repos) := by
  obtain ⟨g1, g2, g3⟩ := keyTermsOfTokens_spec (tweetTokens signals)
  obtain ⟨h1, h2, h3⟩ := keyTermsOfTokens_spec (repoTokens repos)
  refine ⟨⟨g1, ?_, g3, rfl⟩, h1, ?_, h3, rfl⟩
  · intro t ht
    obtain ⟨hmem, hcnt⟩ := g2 t ht
    obtain ⟨hlen, hstop⟩ := tweetTokens_prop signals t hmem
    exact ⟨hlen, hstop, hcnt⟩
  · intro t ht
    obtain ⟨hmem, hcnt⟩ := h2 t ht
    obtain ⟨hlen, hstop⟩ := repoTokens_prop repos t hmem
    exact ⟨hlen, hstop, hcnt⟩

/-- Witness for C9 at empty item lists. -/
theorem extractKeyTerms_spec_witness :
    ((extractKeyTerms []).length ≤ 10 ∧
      (∀ t ∈ extractKeyTerms [], 3 < t.length ∧ t ∉ STOP_WORDS_TWEETS ∧
        2 ≤ (tweetTokens []).count t) ∧
      (extractKeyTerms []).Pairwise (fun a b =>
        (tweetTokens []).count b < (tweetTokens []).count a ∨
          ((tweetTokens []).count a = (tweetTokens []).count b ∧
            List.indexOf a (tweetTokens []) < List.indexOf b (tweetTokens []))) ∧
      extractKeyTerms [] = extractKeyTerms []) ∧
      ((extractKeyTermsRepos []).length ≤ 10 ∧
        (∀ t ∈ extractKeyTermsRepos [], 3 < t.length ∧ t ∉ STOP_WORDS_REPOS ∧
          2 ≤ (repoTokens []).count t) ∧
        (extractKeyTermsRepos []).Pairwise (fun a b =>
          (repoTokens []).count b < (repoTokens []).count a ∨
            ((repoTokens []).count a = (repoTokens []).count b ∧
              List.indexOf a (repoTokens []) < List.indexOf b (repoTokens []))) ∧
        extractKeyTermsRepos [] = extractKeyTermsRepos []) :=
  extractKeyTerms_spec [] []

/-! ### The aggregator loop (claim C1) -/

theorem alignment_names_nodup : (TOPIC_ALIGNMENT.map AlignEntry.name).Nodup := by
  decide

theorem processEntry_name (x : XScanResult) (g : GHScanResult) (e : AlignEntry)
    (r : DetectedNarrative) (h : processEntry x g e = some r) : r.name = e.name := by
  simp only [processEntry] at h
  split at h
  · exact Option.noConfusion h
  · split at h
    · exact Option.noConfusion h
    · obtain rfl := Option.some.inj h
      rfl

theorem processEntry_score_ge (x : XScanResult) (g : GHScanResult) (e : AlignEntry)
    (r : DetectedNarrative) (h : processEntry x g e = some r) : 15 ≤ r.signalScore := by
  simp only [processEntry] at h
  split at h
  · exact Option.noConfusion h
  · split at h
    · exact Option.noConfusion h
    · next hge =>
      obtain rfl := Option.some.inj h
      exact not_lt.mp hge

theorem processEntry_isSome_iff (x : XScanResult) (g : GHScanResult) (e : AlignEntry) :
    (processEntry x g e).isSome ↔
      (((x.topicClusters.find? (fun c => c.topic == e.xTopic)).isSome ∨
        (g.topicClusters.find? (fun c => c.topic == e.ghTopic)).isSome) ∧
        15 ≤ computeSignalScore
          (buildSocialSnapshot (x.topicClusters.find? (fun c => c.topic == e.xTopic)))
          (buildDevSnapshot (g.topicClusters.find? (fun c => c.topic == e.ghTopic)))) := by
  simp only [processEntry]
  by_cases hx : x.topicClusters.find? (fun c => c.topic == e.xTopic) = none
  · by_cases hg : g.topicClusters.find? (fun c => c.topic == e.ghTopic) = none
    · rw [if_pos (by rw [hx, hg]; rfl)]
      simp [hx, hg]
    · rw [if_neg (by rw [hx]; simpa using hg)]
      split
      · next hlt =>
        simp only [Option.isSome_none, Bool.false_eq_true, false_iff]
        rintro ⟨-, hge⟩
        exact absurd hlt (not_lt.mpr hge)
      · next hge =>
        simp only [Option.isSome_some, true_iff]
        exact ⟨Or.inr (Option.isSome_iff_ne_none.mpr hg), not_lt.mp hge⟩
  · have hcond : ¬(((x.topicClusters.find? (fun c => c.topic == e.xTopic)).isNone &&
        (g.topicClusters.find? (fun c => c.topic == e.ghTopic)).isNone) = true) := by
      rw [Bool.and_eq_true_iff]
      rintro ⟨h1, -⟩
      exact hx (Option.isNone_iff_eq_none.mp h1)
    rw [if_neg hcond]
    split
    · next hlt =>
      simp only [Option.isSome_none, Bool.false_eq_true, false_iff]
      rintro ⟨-, hge⟩
      exact absurd hlt (not_lt.mpr hge)
    · next hge =>
      simp only [Option.isSome_some, true_iff]
      exact ⟨Or.inl (Option.isSome_iff_ne_none.mpr hx), not_lt.mp hge⟩

theorem mem_aggregateSignals (x : XScanResult) (g : GHScanResult) (r : DetectedNarrative) :
    r ∈ aggregateSignals x g ↔ ∃ e, e ∈ TOPIC_ALIGNMENT ∧ processEntry x g e = some r := by
  rw [aggregateSignals, mem_sortDesc, List.mem_filterMap]

theorem alignment_name_inj : ∀ e ∈ TOPIC_ALIGNMENT, ∀ e' ∈ TOPIC_ALIGNMENT,
    e.name = e'.name → e = e' :=
  fun _ he _ he' h => List.inj_on_of_nodup_map alignment_names_nodup he he' h

/-- C1: for every pair of input cluster sets and every alignment-table entry,
`aggregateSignals` emits a narrative record named after that entry iff at
least one of its two source clusters is found AND the composite score of the
built snapshots is ≥ 15; moreover no record with score below 15 ever appears
in the output list (entries with both clusters absent are skipped by the
first conjunct: nothing is emitted for them). -/
theorem aggregateSignals_emits_iff (x : XScanResult) (g : GHScanResult)
    (i : Fin TOPIC_ALIGNMENT.length) :
    ((∃ r ∈ aggregateSignals x g, r.name = (TOPIC_ALIGNMENT.get i).name) ↔
      (((x.topicClusters.find? (fun c => c.topic == (TOPIC_ALIGNMENT.get i).xTopic)).isSome ∨
        (g.topicClusters.find? (fun c => c.topic == (TOPIC_ALIGNMENT.get i).ghTopic)).isSome) ∧
        15 ≤ computeSignalScore
          (buildSocialSnapshot
            (x.topicClusters.find? (fun c => c.topic == (TOPIC_ALIGNMENT.get i).xTopic)))
          (buildDevSnapshot
            (g.topicClusters.find? (fun c => c.topic == (TOPIC_ALIGNMENT.get i).ghTopic))))) ∧
      ∀ r ∈ aggregateSignals x g, 15 ≤ r.signalScore := by
  constructor
  · constructor
    · rintro ⟨r, hr, hname⟩
      rcases (mem_aggregateSignals x g r).mp hr with ⟨e, he, hpe⟩
      have hne : e.name = (TOPIC_ALIGNMENT.get i).name := by
        rw [← processEntry_name x g e r hpe, hname]
      have heq : e = TOPIC_ALIGNMENT.get i :=
        alignment_name_inj e he _ (List.get_mem _ _ _) hne
      rw [← heq]
      exact (processEntry_isSome_iff x g e).mp (by rw [hpe]; rfl)
    · intro hcond
      have hsome := (processEntry_isSome_iff x g (TOPIC_ALIGNMENT.get i)).mpr hcond
      obtain ⟨r, hr⟩ := Option.isSome_iff_exists.mp hsome
      exact ⟨r, (mem_aggregateSignals x g r).mpr ⟨TOPIC_ALIGNMENT.get i,
        List.get_mem _ _ _, hr⟩, processEntry_name x g _ r hr⟩
  · intro r hr
    rcases (mem_aggregateSignals x g r).mp hr with ⟨e, _, hpe⟩
    exact processEntry_score_ge x g e r hpe

end NarrativeScope
